import Mathlib

/-!
Verification development for the EM fitting engine of the Gaussian mixture
model code (`src/mlpack/methods/gmm/em_fit_impl.hpp`).

The embedding works over exact rationals.  External capabilities consumed by
the engine (the Gaussian density evaluator, the covariance-constraint
projection, the clusterer's hard assignment, the `std::log` function and the
Armadillo diagonal GMM learner `arma::gmm_diag::learn`) are parameters of the
model: the spec treats them as collaborators outside this core.  The value of
`std::log` is modelled as `WithBot ℚ`, with `⊥` playing the role of the IEEE
negative infinity produced by `log(0)` (addition on `WithBot` absorbs `⊥`,
exactly as `-inf + finite = -inf`).  The E/M loop, whose source form is a
`while` loop that need not terminate when `maxIterations = 0`, is embedded
with an explicit fuel argument; the loop also returns the number of E/M
passes it executed.
-/

namespace EMFitModel

/-- A Gaussian mixture component, `distribution::GaussianDistribution`:
a mean vector and a covariance matrix of dimension `D`. -/
structure GaussianDistribution (D : ℕ) where
  mean : Fin D → ℚ
  covariance : Fin D → Fin D → ℚ
deriving DecidableEq

/-- External capabilities and fixed data consumed by `EMFit`: the density
evaluator (`dists[i].Probability`), the covariance constraint projection
(`constraint.ApplyConstraint`), the observation matrix (`N` points of
dimension `D`, point `j` being column `j` of `observations`), the logarithm
capability (`std::log`, with `⊥` for the negative infinity at 0), the
magnitude of the `-DBL_MAX` sentinel used to initialize `lOld`, and whether
the configured initial clusterer is the library's default k-means
(`std::is_same<InitialClusteringType, KMeans<>>`). -/
structure EMContext (D N : ℕ) where
  density : GaussianDistribution D → (Fin D → ℚ) → ℚ
  applyConstraint : (Fin D → Fin D → ℚ) → (Fin D → Fin D → ℚ)
  obs : Fin N → Fin D → ℚ
  lg : ℚ → WithBot ℚ
  dblMax : ℚ
  isDefaultKMeans : Bool

variable {D N K : ℕ}

/-- E-step, raw responsibilities: `condProb` column `i` is the density of
component `i` at every point, multiplied by `weights[i]`
(`dists[i].Probability(observations, alias); alias *= weights[i]`).
Indexing is `condProbRaw j i` for point `j` and component `i`, matching the
`N × K` layout of the source matrix. -/
def condProbRaw (ctx : EMContext D N) (dists : Fin K → GaussianDistribution D)
    (weights : Fin K → ℚ) : Fin N → Fin K → ℚ :=
  fun j i => ctx.density (dists i) (ctx.obs j) * weights i

/-- Sum of row `j` of a responsibility matrix (`accu(condProb.row(i))`). -/
def rowSum (cp : Fin N → Fin K → ℚ) (j : Fin N) : ℚ :=
  ∑ i, cp j i

/-- Row-wise normalization of the responsibility matrix: a row is divided by
its sum unless the sum is exactly zero, in which case it is left untouched
(`if (probSum != 0.0) condProb.row(i) /= probSum`). -/
def normalizeRows (cp : Fin N → Fin K → ℚ) : Fin N → Fin K → ℚ :=
  fun j i => if rowSum cp j = 0 then cp j i else cp j i / rowSum cp j

/-- The normalized responsibility matrix produced by the E-step. -/
def condProb (ctx : EMContext D N) (dists : Fin K → GaussianDistribution D)
    (weights : Fin K → ℚ) : Fin N → Fin K → ℚ :=
  normalizeRows (condProbRaw ctx dists weights)

/-- Column sums of the responsibility matrix
(`probRowSums = trans(sum(condProb, 0))`): the Effective Mass of each
component in the unweighted overload. -/
def probRowSums (cp : Fin N → Fin K → ℚ) (i : Fin K) : ℚ :=
  ∑ j, cp j i

/-- Effective Mass of component `i` in the weighted overload:
`probRowSums[i] = accu(condProb.col(i) % probabilities)`. -/
def probRowSumsW (w : Fin N → ℚ) (cp : Fin N → Fin K → ℚ) (i : Fin K) : ℚ :=
  ∑ j, cp j i * w j

/-- M-step parameter update for one component in the unweighted overload:
mean and covariance are recomputed only when the Effective Mass
`probRowSums[i]` is nonzero (`if (probRowSums[i] != 0)` twice in the
source); the covariance uses the centered outer products with the updated
mean scaled by the responsibility column, and the constraint policy is
applied before storing. -/
def mStepDist (ctx : EMContext D N) (cp : Fin N → Fin K → ℚ)
    (dists : Fin K → GaussianDistribution D) (i : Fin K) :
    GaussianDistribution D :=
  let mass := probRowSums cp i
  let newMean : Fin D → ℚ :=
    if mass ≠ 0 then fun d => (∑ j, cp j i * ctx.obs j d) / mass
    else (dists i).mean
  let newCov : Fin D → Fin D → ℚ :=
    if mass ≠ 0 then
      ctx.applyConstraint (fun a b =>
        (∑ j, (ctx.obs j a - newMean a) * (cp j i * (ctx.obs j b - newMean b)))
          / mass)
    else (dists i).covariance
  ⟨newMean, newCov⟩

/-- M-step mixing weight update in the unweighted overload:
`weights = probRowSums / observations.n_cols`. -/
def mStepWeights (cp : Fin N → Fin K → ℚ) : Fin K → ℚ :=
  fun i => probRowSums cp i / (N : ℚ)

/-- M-step parameter update for one component in the weighted overload: the
source divides by `probRowSums[i]` unconditionally (there is no zero-mass
guard in this overload), scaling responsibilities point-wise by the external
point weights. -/
def mStepDistW (ctx : EMContext D N) (w : Fin N → ℚ)
    (cp : Fin N → Fin K → ℚ) (i : Fin K) : GaussianDistribution D :=
  let mass := probRowSumsW w cp i
  let newMean : Fin D → ℚ :=
    fun d => (∑ j, cp j i * w j * ctx.obs j d) / mass
  ⟨newMean,
    ctx.applyConstraint (fun a b =>
      (∑ j, (ctx.obs j a - newMean a) * (cp j i * w j * (ctx.obs j b - newMean b)))
        / mass)⟩

/-- M-step mixing weight update in the weighted overload:
`weights = probRowSums / accu(probabilities)`. -/
def mStepWeightsW (w : Fin N → ℚ) (cp : Fin N → Fin K → ℚ) : Fin K → ℚ :=
  fun i => probRowSumsW w cp i / (∑ j, w j)

/-- The likelihood matrix assembled by `EMFit::LogLikelihood`:
`likelihoods.row(i) = weights(i) * trans(phis)`. -/
def likelihoodsMat (ctx : EMContext D N) (dists : Fin K → GaussianDistribution D)
    (weights : Fin K → ℚ) : Fin K → Fin N → ℚ :=
  fun i j => weights i * ctx.density (dists i) (ctx.obs j)

/-- Mixture density of point `j`: `accu(likelihoods.col(j))`, the sum over
components of mixing weight times component density at the point. -/
def mixtureDensity (ctx : EMContext D N) (dists : Fin K → GaussianDistribution D)
    (weights : Fin K → ℚ) (j : Fin N) : ℚ :=
  ∑ i, weights i * ctx.density (dists i) (ctx.obs j)

/-- The log-likelihood accumulation of `EMFit::LogLikelihood`: starting from
0, for each point in order, add the logarithm of the column sum of the
likelihood matrix (`logLikelihood += log(accu(likelihoods.col(j)))`).  The
accumulation is total: a zero mixture density contributes `lg 0` (IEEE
negative infinity, modelled as `⊥`) and the fold continues over the
remaining points. -/
def logLikelihood (ctx : EMContext D N) (dists : Fin K → GaussianDistribution D)
    (weights : Fin K → ℚ) : WithBot ℚ :=
  (List.finRange N).foldl
    (fun acc j => acc + ctx.lg (∑ i, likelihoodsMat ctx dists weights i j)) 0

/-- State of the E/M loop: the current components, mixing weights, and the
log-likelihood values `l` and `lOld` driving the convergence test. -/
structure LoopState (D K : ℕ) where
  dists : Fin K → GaussianDistribution D
  weights : Fin K → ℚ
  l : WithBot ℚ
  lOld : WithBot ℚ
deriving DecidableEq

/-- Convergence test `std::abs(l - lOld) > tolerance` on IEEE doubles where
`l` or `lOld` may be negative infinity (`⊥`): if both are `-inf` the
difference is NaN and the comparison is false; if exactly one is `-inf` the
absolute difference is `+inf` and the comparison is true. -/
def absDiffGtTol (tol : ℚ) (l lOld : WithBot ℚ) : Bool :=
  match l, lOld with
  | none, none => false
  | none, some _ => true
  | some _, none => true
  | some a, some b => decide (tol < |a - b|)

/-- Guard of the E/M `while` loop:
`std::abs(l - lOld) > tolerance && iteration != maxIterations`. -/
def loopGuard (tol : ℚ) (maxIter : ℕ) (s : LoopState D K) (it : ℕ) : Bool :=
  absDiffGtTol tol s.l s.lOld && decide (it ≠ maxIter)

/-- Fuel-bounded `while` loop shared by both `Estimate` overloads: starting
from iteration counter `it`, as long as the guard holds (and fuel remains),
apply one E/M pass and increment the counter.  Returns the final state and
the number of E/M passes executed. -/
def emLoop (guard : LoopState D K → ℕ → Bool)
    (step : LoopState D K → LoopState D K) :
    ℕ → ℕ → LoopState D K → LoopState D K × ℕ
  | 0, _, s => (s, 0)
  | fuel + 1, it, s =>
    if guard s it then
      let r := emLoop guard step fuel (it + 1) (step s)
      (r.1, r.2 + 1)
    else (s, 0)

/-- One E/M pass of the unweighted `Estimate` overload: E-step, M-step for
every component, mixing weight update, then `lOld = l` and recomputation of
`l` from the updated model. -/
def emStepU (ctx : EMContext D N) (s : LoopState D K) : LoopState D K :=
  let cp := condProb ctx s.dists s.weights
  let newDists := fun i => mStepDist ctx cp s.dists i
  let newWeights := mStepWeights cp
  ⟨newDists, newWeights, logLikelihood ctx newDists newWeights, s.l⟩

/-- One E/M pass of the weighted `Estimate` overload. -/
def emStepW (ctx : EMContext D N) (w : Fin N → ℚ) (s : LoopState D K) :
    LoopState D K :=
  let cp := condProb ctx s.dists s.weights
  let newDists := fun i => mStepDistW ctx w cp i
  let newWeights := mStepWeightsW w cp
  ⟨newDists, newWeights, logLikelihood ctx newDists newWeights, s.l⟩

/-- The loop state on entry of either E/M loop: the seeded components and
weights, the initial log-likelihood, and `lOld = -DBL_MAX`. -/
def initState (ctx : EMContext D N) (dists : Fin K → GaussianDistribution D)
    (weights : Fin K → ℚ) : LoopState D K :=
  ⟨dists, weights, logLikelihood ctx dists weights,
   ((-ctx.dblMax : ℚ) : WithBot ℚ)⟩

/-- The generic E/M loop of the unweighted overload: initial log-likelihood,
`lOld = -DBL_MAX`, iteration counter starting at 1. -/
def emLoopU (ctx : EMContext D N) (tol : ℚ) (maxIter fuel : ℕ)
    (dists : Fin K → GaussianDistribution D) (weights : Fin K → ℚ) :
    LoopState D K × ℕ :=
  emLoop (loopGuard tol maxIter) (emStepU ctx) fuel 1 (initState ctx dists weights)

/-- The generic E/M loop of the weighted overload. -/
def emLoopW (ctx : EMContext D N) (w : Fin N → ℚ) (tol : ℚ) (maxIter fuel : ℕ)
    (dists : Fin K → GaussianDistribution D) (weights : Fin K → ℚ) :
    LoopState D K × ℕ :=
  emLoop (loopGuard tol maxIter) (emStepW ctx w) fuel 1 (initState ctx dists weights)

/-- Number of points the clusterer assigned to cluster `k`
(the first-pass accumulation `weights[cluster]++`). -/
def icCounts (assign : Fin N → Fin K) (k : Fin K) : ℚ :=
  ∑ j, if assign j = k then (1 : ℚ) else 0

/-- The divisor used by `InitialClustering`: the assigned count, clamped to
a minimum of 1 (`(weights[i] > 1) ? weights[i] : 1`). -/
def icClamped (assign : Fin N → Fin K) (k : Fin K) : ℚ :=
  if icCounts assign k > 1 then icCounts assign k else 1

/-- Cluster means of `InitialClustering`: sum of the assigned points divided
by the clamped count. -/
def icMeans (ctx : EMContext D N) (assign : Fin N → Fin K) (k : Fin K) :
    Fin D → ℚ :=
  fun d => (∑ j, if assign j = k then ctx.obs j d else 0) / icClamped assign k

/-- Covariance accumulated by `InitialClustering` before normalization: the
first pass adds the uncentered outer product of every assigned point
(`covs[cluster] += observations.col(i) * trans(observations.col(i))`), and
the second pass adds the centered outer products on top of it
(`covs[cluster] += normObs * normObs.t()`) without resetting the
accumulator. -/
def icCovAccum (ctx : EMContext D N) (assign : Fin N → Fin K) (k : Fin K) :
    Fin D → Fin D → ℚ :=
  fun a b =>
    (∑ j, if assign j = k then ctx.obs j a * ctx.obs j b else 0) +
    ∑ j, if assign j = k then
      (ctx.obs j a - icMeans ctx assign k a) * (ctx.obs j b - icMeans ctx assign k b)
    else 0

/-- `EMFit::InitialClustering`: run the clusterer (its hard assignment is the
external capability `assign`), accumulate means and covariances, normalize by
the clamped counts, apply the constraint policy to every covariance, and
normalize the counts into mixing weights (`weights /= accu(weights)`). -/
def initialClustering (ctx : EMContext D N) (assign : Fin N → Fin K) :
    (Fin K → GaussianDistribution D) × (Fin K → ℚ) :=
  (fun k =>
    ⟨icMeans ctx assign k,
     ctx.applyConstraint (fun a b => icCovAccum ctx assign k a b / icClamped assign k)⟩,
   fun k => icCounts assign k / ∑ k2, icCounts assign k2)

/-- The covariance that the specification's two-pass description prescribes
for `InitialClustering`: the average of the centered (mean-subtracted) outer
products of the points assigned to cluster `k`, normalized by the clamped
count, with the constraint policy applied.  This definition follows the
spec's words and exists only to be compared with the accumulation the code
actually performs (`icCovAccum`). -/
def icCovTwoPass (ctx : EMContext D N) (assign : Fin N → Fin K) (k : Fin K) :
    Fin D → Fin D → ℚ :=
  ctx.applyConstraint (fun a b =>
    (∑ j, if assign j = k then
      (ctx.obs j a - icMeans ctx assign k a) * (ctx.obs j b - icMeans ctx assign k b)
    else 0) / icClamped assign k)

/-- Arguments with which `arma::gmm_diag::learn` is invoked by
`ArmadilloGMMWrapper`: the seeding mode (`keep_existing` versus
`static_subset`), the k-means iteration count, the EM iteration cap, the
convergence threshold, and the seeded parameters installed by `set_params`
(means, diagonal covariances, hefts). -/
structure DiagLearnArgs (D K : ℕ) where
  keepExisting : Bool
  kmIter : ℕ
  emIter : ℕ
  errThresh : ℚ
  initMeans : Fin K → Fin D → ℚ
  initDcovs : Fin K → Fin D → ℚ
  initHefts : Fin K → ℚ

/-- The external Armadillo diagonal-covariance learner capability: from the
invocation arguments it produces means, diagonal covariances, and hefts. -/
def DiagLearner (D K : ℕ) :=
  DiagLearnArgs D K → (Fin K → Fin D → ℚ) × (Fin K → Fin D → ℚ) × (Fin K → ℚ)

/-- `EMFit::ArmadilloGMMWrapper`: if the clusterer is not the default
k-means, or an initial model was supplied, seed the learner (running
`InitialClustering` first when no initial model was given) and invoke it
with `keep_existing`, `km_iter = 0`, and threshold `1e-10`; otherwise invoke
it with `static_subset`, `km_iter = 1000`, and threshold `1e-10`.  The
caller-configured tolerance is never passed to the learner.  The results are
read back as the new weights, means, and diagonal covariance matrices. -/
def armadilloGMMWrapper (ctx : EMContext D N) (learn : DiagLearner D K)
    (assign : Fin N → Fin K) (maxIter : ℕ) (useInitialModel : Bool)
    (dists : Fin K → GaussianDistribution D) (weights : Fin K → ℚ) :
    (Fin K → GaussianDistribution D) × (Fin K → ℚ) :=
  if !ctx.isDefaultKMeans || useInitialModel then
    let seeded := if useInitialModel then (dists, weights)
                  else initialClustering ctx assign
    let r := learn ⟨true, 0, maxIter, 1 / 10000000000,
      fun k => (seeded.1 k).mean, fun k d => (seeded.1 k).covariance d d,
      seeded.2⟩
    (fun k => ⟨r.1 k, fun a b => if a = b then r.2.1 k a else 0⟩, r.2.2)
  else
    let r := learn ⟨false, 1000, maxIter, 1 / 10000000000,
      fun _ _ => 0, fun _ _ => 0, fun _ => 0⟩
    (fun k => ⟨r.1 k, fun a b => if a = b then r.2.1 k a else 0⟩, r.2.2)

/-- The unweighted `EMFit::Estimate` overload: when the covariance
constraint policy is the diagonal-only variant
(`std::is_same<CovarianceConstraintPolicy, DiagonalConstraint>`), delegate
to `ArmadilloGMMWrapper` and return; otherwise optionally run
`InitialClustering` and enter the generic E/M loop. -/
def estimate (ctx : EMContext D N) (isDiag : Bool) (learn : DiagLearner D K)
    (assign : Fin N → Fin K) (tol : ℚ) (maxIter fuel : ℕ)
    (useInitialModel : Bool) (dists : Fin K → GaussianDistribution D)
    (weights : Fin K → ℚ) :
    (Fin K → GaussianDistribution D) × (Fin K → ℚ) :=
  if isDiag then
    armadilloGMMWrapper ctx learn assign maxIter useInitialModel dists weights
  else
    let seeded := if useInitialModel then (dists, weights)
                  else initialClustering ctx assign
    let r := emLoopU ctx tol maxIter fuel seeded.1 seeded.2
    (r.1.dists, r.1.weights)

/-- The weighted `EMFit::Estimate` overload: it takes the same class-level
configuration (constraint policy tag and learner capability) but contains no
dispatch at all — it always runs the generic E/M loop with the configured
tolerance. -/
def estimateWeighted (ctx : EMContext D N) (isDiag : Bool)
    (learn : DiagLearner D K) (assign : Fin N → Fin K) (w : Fin N → ℚ)
    (tol : ℚ) (maxIter fuel : ℕ) (useInitialModel : Bool)
    (dists : Fin K → GaussianDistribution D) (weights : Fin K → ℚ) :
    (Fin K → GaussianDistribution D) × (Fin K → ℚ) :=
  let seeded := if useInitialModel then (dists, weights)
                else initialClustering ctx assign
  let r := emLoopW ctx w tol maxIter fuel seeded.1 seeded.2
  (r.1.dists, r.1.weights)

/-- Concrete one-point, one-component, one-dimensional instance used to
evaluate the model on explicit inputs: constant density 1, identity
constraint, the single observation at 0, and a logarithm capability sending
0 to `⊥` (negative infinity). -/
def exCtx : EMContext 1 1 :=
  ⟨fun _ _ => 1, id, fun _ _ => 0,
   fun q => if q = 0 then ⊥ else (q : WithBot ℚ), 1000, true⟩

/-- Concrete diagonal learner capability that returns its seeded
parameters unchanged. -/
def exLearn : DiagLearner 1 1 := fun a => (a.initMeans, a.initDcovs, a.initHefts)

/-- Concrete clusterer assignment for the one-point instance. -/
def exAssign : Fin 1 → Fin 1 := fun _ => 0

/-- Concrete initial component: mean 5, covariance 1. -/
def exDists : Fin 1 → GaussianDistribution 1 := fun _ => ⟨fun _ => 5, fun _ _ => 1⟩

/-- Concrete initial mixing weights, all zero. -/
def exWeights0 : Fin 1 → ℚ := fun _ => 0

/-- Concrete initial mixing weights, all one. -/
def exWeights1 : Fin 1 → ℚ := fun _ => 1

/-- Concrete loop state with a zero-weight component. -/
def exState0 : LoopState 1 1 :=
  ⟨exDists, exWeights0, ((0 : ℚ) : WithBot ℚ), ((0 : ℚ) : WithBot ℚ)⟩

/-- Concrete two-point, one-dimensional instance for `InitialClustering`:
observations 0 and 2, identity constraint. -/
def exCtx2 : EMContext 1 2 :=
  ⟨fun _ _ => 1, id, fun j _ => if j = 0 then 0 else 2,
   fun q => if q = 0 then ⊥ else (q : WithBot ℚ), 1000, true⟩

/-- Concrete clusterer assignment sending both points to cluster 0. -/
def exAssign2 : Fin 2 → Fin 1 := fun _ => 0

/-! Helper lemmas. -/

/-- Folding addition of `f` over a list, starting from `init`, equals `init`
plus the sum of the mapped list. -/
theorem foldl_add_eq {α : Type} (f : α → WithBot ℚ) :
    ∀ (l : List α) (init : WithBot ℚ),
      List.foldl (fun acc x => acc + f x) init l = init + (l.map f).sum
  | [], init => by simp
  | x :: xs, init => by
    simp only [List.foldl_cons, List.map_cons, List.sum_cons]
    rw [foldl_add_eq f xs, add_assoc]

/-- The log-likelihood accumulation equals the sum over the points of the
logarithm of each point's mixture density. -/
theorem logLikelihood_eq_sum (ctx : EMContext D N)
    (dists : Fin K → GaussianDistribution D) (weights : Fin K → ℚ) :
    logLikelihood ctx dists weights =
      ∑ j, ctx.lg (mixtureDensity ctx dists weights j) := by
  rw [logLikelihood, foldl_add_eq, zero_add, ← Fin.sum_univ_def]
  rfl

theorem absDiffGtTol_bot_bot (tol : ℚ) : absDiffGtTol tol ⊥ ⊥ = false := rfl

theorem absDiffGtTol_bot_coe (tol a : ℚ) :
    absDiffGtTol tol ⊥ (a : WithBot ℚ) = true := rfl

theorem absDiffGtTol_coe_bot (tol a : ℚ) :
    absDiffGtTol tol (a : WithBot ℚ) ⊥ = true := rfl

theorem absDiffGtTol_coe_coe (tol a b : ℚ) :
    absDiffGtTol tol (a : WithBot ℚ) (b : WithBot ℚ) =
      decide (tol < |a - b|) := rfl

/-- Every row of the normalized responsibility matrix whose raw sum is
nonzero sums to exactly 1. -/
theorem sum_condProb_row (cp : Fin N → Fin K → ℚ) (j : Fin N)
    (h : rowSum cp j ≠ 0) : ∑ i, normalizeRows cp j i = 1 := by
  simp only [normalizeRows, if_neg h]
  rw [← Finset.sum_div]
  exact div_self h

/-- Entries of the normalized responsibility matrix are nonnegative when the
raw entries are. -/
theorem normalizeRows_nonneg (cp : Fin N → Fin K → ℚ)
    (hcp : ∀ j i, 0 ≤ cp j i) (j : Fin N) (i : Fin K) :
    0 ≤ normalizeRows cp j i := by
  unfold normalizeRows
  split
  · exact hcp j i
  · next h =>
    have hsum : 0 ≤ rowSum cp j := Finset.sum_nonneg fun i _ => hcp j i
    exact div_nonneg (hcp j i) hsum

/-- Raw responsibilities are nonnegative when densities and mixing weights
are. -/
theorem condProbRaw_nonneg (ctx : EMContext D N)
    (dists : Fin K → GaussianDistribution D) (weights : Fin K → ℚ)
    (hD : ∀ g x, 0 ≤ ctx.density g x) (hW : ∀ i, 0 ≤ weights i)
    (j : Fin N) (i : Fin K) : 0 ≤ condProbRaw ctx dists weights j i :=
  mul_nonneg (hD _ _) (hW i)

/-- A component whose Effective Mass is zero keeps its mean and covariance
through the unweighted M-step. -/
theorem mStepDist_frozen (ctx : EMContext D N) (cp : Fin N → Fin K → ℚ)
    (dists : Fin K → GaussianDistribution D) (i : Fin K)
    (h : probRowSums cp i = 0) : mStepDist ctx cp dists i = dists i := by
  simp [mStepDist, h]

/-- A dead component (zero mixing weight) has an all-zero responsibility
column in the unweighted E-step. -/
theorem condProb_col_zero (ctx : EMContext D N)
    (dists : Fin K → GaussianDistribution D) (weights : Fin K → ℚ)
    (k : Fin K) (h : weights k = 0) (j : Fin N) :
    condProb ctx dists weights j k = 0 := by
  have hraw : condProbRaw ctx dists weights j k = 0 := by
    simp [condProbRaw, h]
  unfold condProb normalizeRows
  split
  · exact hraw
  · rw [hraw, zero_div]

/-- One unweighted E/M pass keeps a dead component dead and frozen. -/
theorem emStepU_dead (ctx : EMContext D N) (s : LoopState D K) (k : Fin K)
    (h : s.weights k = 0) :
    (emStepU ctx s).dists k = s.dists k ∧ (emStepU ctx s).weights k = 0 := by
  have hmass : probRowSums (condProb ctx s.dists s.weights) k = 0 := by
    unfold probRowSums
    exact Finset.sum_eq_zero fun j _ => condProb_col_zero ctx s.dists s.weights k h j
  constructor
  · exact mStepDist_frozen ctx _ s.dists k hmass
  · simp [emStepU, mStepWeights, hmass]

/-- The unweighted E/M loop keeps a dead component dead and frozen, from any
iteration counter and for any amount of fuel. -/
theorem emLoop_dead_invariant (ctx : EMContext D N) (tol : ℚ) (maxIter : ℕ)
    (k : Fin K) :
    ∀ (fuel it : ℕ) (s : LoopState D K), s.weights k = 0 →
      ((emLoop (loopGuard tol maxIter) (emStepU ctx) fuel it s).1).weights k = 0 ∧
      ((emLoop (loopGuard tol maxIter) (emStepU ctx) fuel it s).1).dists k = s.dists k
  | 0, _, s, h => ⟨h, rfl⟩
  | fuel + 1, it, s, h => by
    unfold emLoop
    split
    · have hstep := emStepU_dead ctx s k h
      have ih := emLoop_dead_invariant ctx tol maxIter k fuel (it + 1)
        (emStepU ctx s) hstep.2
      exact ⟨ih.1, ih.2.trans hstep.1⟩
    · exact ⟨h, rfl⟩

/-- The E/M loop executes at most `maxIter - it` passes when the iteration
counter starts at `it ≤ maxIter`. -/
theorem emLoop_count_le (tol : ℚ) (maxIter : ℕ)
    (step : LoopState D K → LoopState D K) :
    ∀ (fuel it : ℕ) (s : LoopState D K), it ≤ maxIter →
      (emLoop (loopGuard tol maxIter) step fuel it s).2 ≤ maxIter - it
  | 0, it, s, _ => by simp [emLoop]
  | fuel + 1, it, s, hle => by
    unfold emLoop
    split
    · next hg =>
      have hne : it ≠ maxIter := by
        have := (Bool.and_eq_true _ _).mp hg
        exact of_decide_eq_true this.2
      have hlt : it < maxIter := lt_of_le_of_ne hle hne
      have ih := emLoop_count_le tol maxIter step fuel (it + 1) (step s) hlt
      simp only
      omega
    · simp
  termination_by fuel => fuel

/-! Claim theorems. -/

/-- C1, amended: in the unweighted `Estimate` overload, a component whose
Effective Mass (the sum of its responsibility column) is zero in an
iteration of the E/M loop keeps its mean and covariance unchanged through
that iteration, with no error.  The original claim also asserted this for
the weighted overload, where it fails (`c1_counterexample`): that overload
divides by the Effective Mass unconditionally. -/
theorem c1_frozen_component_unweighted (ctx : EMContext D N)
    (s : LoopState D K) (i : Fin K)
    (h : probRowSums (condProb ctx s.dists s.weights) i = 0) :
    (emStepU ctx s).dists i = s.dists i :=
  mStepDist_frozen ctx _ s.dists i h

/-- Witness for C1: a concrete state with a zero-weight (hence zero-mass)
component, whose mean and covariance one E/M pass leaves unchanged. -/
theorem c1_witness :
    probRowSums (condProb exCtx exState0.dists exState0.weights) 0 = 0 ∧
    (emStepU exCtx exState0).dists 0 = exState0.dists 0 := by
  have h : probRowSums (condProb exCtx exState0.dists exState0.weights) 0 = 0 := by
    simp [probRowSums, condProb, condProbRaw, normalizeRows, rowSum, exCtx,
      exState0, exDists, exWeights0]
  exact ⟨h, c1_frozen_component_unweighted exCtx exState0 0 h⟩

/-- Counterexample for C1 as stated: in the weighted overload, a component
with zero Effective Mass has its mean overwritten by the unconditional
division (`0/0`; with IEEE doubles the stored mean becomes NaN, in this
exact-arithmetic embedding it becomes 0) — either way it no longer equals
the mean before the iteration, which was 5. -/
theorem c1_counterexample :
    probRowSumsW (fun _ => 1) (condProb exCtx exDists exWeights0) 0 = 0 ∧
    ((estimateWeighted exCtx false exLearn exAssign (fun _ => 1) 1 2 2 true
        exDists exWeights0).1 0).mean 0 ≠ (exDists 0).mean 0 := by
  constructor
  · simp [probRowSumsW, condProb, condProbRaw, normalizeRows, rowSum, exCtx,
      exDists, exWeights0]
  · simp [estimateWeighted, emLoopW, initState, emLoop, loopGuard, emStepW,
      condProb, condProbRaw, normalizeRows, rowSum, probRowSumsW, mStepDistW,
      mStepWeightsW, logLikelihood_eq_sum, mixtureDensity, exCtx, exDists,
      exWeights0, absDiffGtTol_bot_bot, absDiffGtTol_bot_coe,
      absDiffGtTol_coe_bot, absDiffGtTol_coe_coe]

/-- C2, amended: after an M-step of either overload the mixing weights are
nonnegative and sum to exactly 1 (hence within 1e-9), provided the density
and the current weights are nonnegative, every responsibility row has a
nonzero sum, there is at least one observation, and (for the weighted
overload) the point weights are nonnegative with positive total.  The
original unconditional claim fails when a responsibility row sums to zero
(`c2_counterexample`). -/
theorem c2_weights_simplex (ctx : EMContext D N)
    (dists : Fin K → GaussianDistribution D) (weights : Fin K → ℚ)
    (hD : ∀ g x, 0 ≤ ctx.density g x) (hW : ∀ i, 0 ≤ weights i)
    (hRow : ∀ j, rowSum (condProbRaw ctx dists weights) j ≠ 0) (hN : 0 < N) :
    ((∀ i, 0 ≤ mStepWeights (K := K) (condProb ctx dists weights) i) ∧
      |(∑ i, mStepWeights (condProb ctx dists weights) i) - 1| ≤ 1 / 1000000000) ∧
    ∀ w : Fin N → ℚ, (∀ j, 0 ≤ w j) → 0 < (∑ j, w j) →
      (∀ i, 0 ≤ mStepWeightsW w (condProb ctx dists weights) i) ∧
      |(∑ i, mStepWeightsW w (condProb ctx dists weights) i) - 1| ≤ 1 / 1000000000 := by
  have hcpn : ∀ j i, 0 ≤ condProb ctx dists weights j i := fun j i =>
    normalizeRows_nonneg _ (condProbRaw_nonneg ctx dists weights hD hW) j i
  have hrow1 : ∀ j, ∑ i, condProb ctx dists weights j i = 1 := fun j =>
    sum_condProb_row (condProbRaw ctx dists weights) j (hRow j)
  have hNQ : (N : ℚ) ≠ 0 := Nat.cast_ne_zero.mpr hN.ne'
  constructor
  · constructor
    · intro i
      exact div_nonneg (Finset.sum_nonneg fun j _ => hcpn j i) (Nat.cast_nonneg N)
    · have hsum : ∑ i, mStepWeights (K := K) (condProb ctx dists weights) i = 1 := by
        unfold mStepWeights probRowSums
        rw [← Finset.sum_div, Finset.sum_comm]
        simp only [hrow1]
        rw [Finset.sum_const, Finset.card_univ, Fintype.card_fin, nsmul_eq_mul,
          mul_one, div_self hNQ]
      rw [hsum]
      norm_num
  · intro w hw hwpos
    constructor
    · intro i
      exact div_nonneg
        (Finset.sum_nonneg fun j _ => mul_nonneg (hcpn j i) (hw j)) hwpos.le
    · have hsum : ∑ i, mStepWeightsW w (condProb ctx dists weights) i = 1 := by
        unfold mStepWeightsW probRowSumsW
        rw [← Finset.sum_div, Finset.sum_comm]
        have : ∀ j, ∑ i, condProb ctx dists weights j i * w j = w j := by
          intro j
          rw [← Finset.sum_mul, hrow1 j, one_mul]
        simp only [this]
        exact div_self hwpos.ne'
      rw [hsum]
      norm_num

/-- Witness for C2: a concrete instance with unit density and unit weights
where the M-step weights sum to 1. -/
theorem c2_witness :
    |(∑ i, mStepWeights (condProb exCtx exDists exWeights1) i) - 1|
      ≤ 1 / 1000000000 :=
  ((c2_weights_simplex exCtx exDists exWeights1
      (fun g x => by norm_num [exCtx])
      (fun i => by norm_num [exWeights1])
      (fun j => by simp [rowSum, condProbRaw, exCtx, exWeights1])
      (by norm_num)).1).2

/-- Counterexample for C2 as stated: starting the unweighted overload from
an all-zero mixing-weight vector (a legal initial model), the completed
M-step of the first iteration produces weights summing to 0, not 1. -/
theorem c2_counterexample :
    ¬ (|(∑ i, (estimate exCtx false exLearn exAssign 1 2 2 true exDists
          exWeights0).2 i) - 1| ≤ 1 / 1000000000) := by
  simp [estimate, emLoopU, initState, emLoop, loopGuard, emStepU, condProb,
    condProbRaw, normalizeRows, rowSum, probRowSums, mStepDist, mStepWeights,
    logLikelihood_eq_sum, mixtureDensity, exCtx, exDists, exWeights0,
    absDiffGtTol_bot_bot, absDiffGtTol_bot_coe, absDiffGtTol_coe_bot,
    absDiffGtTol_coe_coe]
  norm_num

/-- C3: in the E-step of both overloads (they share this normalization), a
responsibility row with nonzero sum is divided by that sum and then sums to
exactly 1 (hence within 1e-9); a row whose sum is exactly 0 is left
unchanged, and — densities and weights being nonnegative — such a row is
all-zero, so no division by zero is performed and no NaN is produced. -/
theorem c3_row_normalization (ctx : EMContext D N)
    (dists : Fin K → GaussianDistribution D) (weights : Fin K → ℚ)
    (hD : ∀ g x, 0 ≤ ctx.density g x) (hW : ∀ i, 0 ≤ weights i) :
    ∀ j, (rowSum (condProbRaw ctx dists weights) j ≠ 0 →
            ∑ i, condProb ctx dists weights j i = 1 ∧
            |(∑ i, condProb ctx dists weights j i) - 1| ≤ 1 / 1000000000)
       ∧ (rowSum (condProbRaw ctx dists weights) j = 0 →
            ∀ i, condProb ctx dists weights j i = condProbRaw ctx dists weights j i ∧
                 condProb ctx dists weights j i = 0) := by
  intro j
  constructor
  · intro h
    have h1 : ∑ i, condProb ctx dists weights j i = 1 := by
      simp only [condProb]
      exact sum_condProb_row (condProbRaw ctx dists weights) j h
    exact ⟨h1, by rw [h1]; norm_num⟩
  · intro h i
    have hall := (Finset.sum_eq_zero_iff_of_nonneg
      (fun i2 _ => condProbRaw_nonneg ctx dists weights hD hW j i2)).mp
      (by simpa [rowSum] using h)
    have hraw := hall i (Finset.mem_univ i)
    exact ⟨by simp [condProb, normalizeRows, h],
           by simp [condProb, normalizeRows, h, hraw]⟩

/-- Witness for C3: a concrete instance whose single responsibility row has
zero sum and is left all-zero by the normalization. -/
theorem c3_witness :
    rowSum (condProbRaw exCtx exDists exWeights0) 0 = 0 ∧
    condProb exCtx exDists exWeights0 0 0 = 0 := by
  have h0 : rowSum (condProbRaw exCtx exDists exWeights0) 0 = 0 := by
    simp [rowSum, condProbRaw, exCtx, exWeights0]
  exact ⟨h0, ((c3_row_normalization exCtx exDists exWeights0
    (fun g x => by norm_num [exCtx])
    (fun i => by norm_num [exWeights0]) 0).2 h0 0).2⟩

/-- C4: in both overloads the iteration counter starts at 1 and the loop
guard is the conjunction of the convergence test with `iteration !=
maxIterations`, so for `maxIterations >= 1` at most `maxIterations - 1` E/M
passes execute after the first likelihood computation, `maxIterations = 1`
executes zero passes, and for `maxIterations = 0` the guard degenerates to
the convergence test alone for every reachable counter value. -/
theorem c4_iteration_bound (ctx : EMContext D N) (w : Fin N → ℚ) (tol : ℚ)
    (maxIter fuel : ℕ) (dists : Fin K → GaussianDistribution D)
    (weights : Fin K → ℚ) :
    (1 ≤ maxIter →
      (emLoopU ctx tol maxIter fuel dists weights).2 ≤ maxIter - 1 ∧
      (emLoopW ctx w tol maxIter fuel dists weights).2 ≤ maxIter - 1) ∧
    (maxIter = 1 →
      (emLoopU ctx tol maxIter fuel dists weights).2 = 0 ∧
      (emLoopW ctx w tol maxIter fuel dists weights).2 = 0) ∧
    (maxIter = 0 → ∀ (s : LoopState D K) (it : ℕ), 1 ≤ it →
      loopGuard tol 0 s it = absDiffGtTol tol s.l s.lOld) := by
  refine ⟨fun h => ⟨?_, ?_⟩, fun h => ?_, fun _ s it hit => ?_⟩
  · exact emLoop_count_le tol maxIter (emStepU ctx) fuel 1
      (initState ctx dists weights) h
  · exact emLoop_count_le tol maxIter (emStepW ctx w) fuel 1
      (initState ctx dists weights) h
  · subst h
    constructor
    · exact Nat.le_zero.mp (emLoop_count_le tol 1 (emStepU ctx) fuel 1
        (initState ctx dists weights) le_rfl)
    · exact Nat.le_zero.mp (emLoop_count_le tol 1 (emStepW ctx w) fuel 1
        (initState ctx dists weights) le_rfl)
  · have hne : it ≠ 0 := by omega
    simp [loopGuard, hne]

/-- Witness for C4: with `maxIterations = 1` the unweighted loop executes
zero E/M passes on a concrete instance. -/
theorem c4_witness : (emLoopU exCtx 1 1 2 exDists exWeights0).2 = 0 :=
  ((c4_iteration_bound exCtx (fun _ => 1) 1 1 2 exDists exWeights0).2.1 rfl).1

/-- C10: in the unweighted overload, a component whose mixing weight is 0 at
the start of an iteration has an all-zero responsibility column in that
E-step, hence zero Effective Mass, keeps its mean and covariance, and its
recomputed mixing weight is again 0; consequently, for any number of further
iterations the component's weight stays 0 and its parameters stay equal to
their current values. -/
theorem c10_dead_component_persists (ctx : EMContext D N) (s : LoopState D K)
    (k : Fin K) (h : s.weights k = 0) :
    (∀ j, condProb ctx s.dists s.weights j k = 0) ∧
    probRowSums (condProb ctx s.dists s.weights) k = 0 ∧
    (emStepU ctx s).dists k = s.dists k ∧
    (emStepU ctx s).weights k = 0 ∧
    ∀ (tol : ℚ) (maxIter fuel it : ℕ),
      ((emLoop (loopGuard tol maxIter) (emStepU ctx) fuel it s).1).weights k = 0 ∧
      ((emLoop (loopGuard tol maxIter) (emStepU ctx) fuel it s).1).dists k = s.dists k :=
  ⟨condProb_col_zero ctx s.dists s.weights k h,
   Finset.sum_eq_zero fun j _ => condProb_col_zero ctx s.dists s.weights k h j,
   (emStepU_dead ctx s k h).1,
   (emStepU_dead ctx s k h).2,
   fun tol maxIter fuel it => emLoop_dead_invariant ctx tol maxIter k fuel it s h⟩

/-- Witness for C10: a concrete dead component stays dead across a concrete
run of the loop. -/
theorem c10_witness :
    exState0.weights 0 = 0 ∧
    ((emLoop (loopGuard 1 3) (emStepU exCtx) 2 1 exState0).1).weights 0 = 0 :=
  ⟨rfl, ((c10_dead_component_persists exCtx exState0 0 rfl).2.2.2.2 1 3 2 1).1⟩

/-- C5, evaluated at the failing input: two one-dimensional observations 0
and 2 assigned to the same cluster, identity constraint.  The code stores
covariance 3, because the second pass adds the centered outer products on
top of the first pass's uncentered accumulation instead of recomputing; the
two-pass covariance the specification describes is 1. -/
theorem c5_initial_covariance_divergence :
    ((initialClustering exCtx2 exAssign2).1 0).covariance 0 0 = 3 ∧
    icCovTwoPass exCtx2 exAssign2 0 0 0 = 1 ∧
    ((initialClustering exCtx2 exAssign2).1 0).covariance 0 0 ≠
      icCovTwoPass exCtx2 exAssign2 0 0 0 := by
  have h1 : ((initialClustering exCtx2 exAssign2).1 0).covariance 0 0 = 3 := by
    simp [initialClustering, icCovAccum, icMeans, icCounts, icClamped,
      exCtx2, exAssign2, Fin.sum_univ_two]
    norm_num
  have h2 : icCovTwoPass exCtx2 exAssign2 0 0 0 = 1 := by
    simp [icCovTwoPass, icMeans, icCounts, icClamped, exCtx2, exAssign2,
      Fin.sum_univ_two]
    norm_num
  exact ⟨h1, h2, by rw [h1, h2]; norm_num⟩

/-- C7: with the diagonal-only constraint policy, the unweighted `Estimate`
bypasses the generic E/M loop and delegates to `ArmadilloGMMWrapper`; the
result does not depend on the caller-configured tolerance (or on the loop
fuel), and the external learner is only ever invoked with the fixed
convergence threshold `1e-10`, so any two learners agreeing on
`1e-10`-threshold invocations yield the same result. -/
theorem c7_diagonal_fast_path (ctx : EMContext D N)
    (learn learn2 : DiagLearner D K) (assign : Fin N → Fin K)
    (tol tol2 : ℚ) (maxIter fuel fuel2 : ℕ) (uim : Bool)
    (dists : Fin K → GaussianDistribution D) (weights : Fin K → ℚ)
    (hL : ∀ a : DiagLearnArgs D K, a.errThresh = 1 / 10000000000 →
      learn a = learn2 a) :
    estimate ctx true learn assign tol maxIter fuel uim dists weights =
      armadilloGMMWrapper ctx learn assign maxIter uim dists weights ∧
    estimate ctx true learn assign tol maxIter fuel uim dists weights =
      estimate ctx true learn assign tol2 maxIter fuel2 uim dists weights ∧
    estimate ctx true learn assign tol maxIter fuel uim dists weights =
      estimate ctx true learn2 assign tol maxIter fuel uim dists weights := by
  refine ⟨rfl, rfl, ?_⟩
  show armadilloGMMWrapper ctx learn assign maxIter uim dists weights =
    armadilloGMMWrapper ctx learn2 assign maxIter uim dists weights
  unfold armadilloGMMWrapper
  by_cases hb : (!ctx.isDefaultKMeans || uim) = true
  · simp only [if_pos hb]
    rw [hL _ rfl]
  · simp only [if_neg hb]
    rw [hL _ rfl]

/-- Witness for C7: on a concrete instance the diagonal dispatch equals the
wrapper call. -/
theorem c7_witness :
    estimate exCtx true exLearn exAssign 1 2 2 true exDists exWeights1 =
      armadilloGMMWrapper exCtx exLearn exAssign 2 true exDists exWeights1 :=
  (c7_diagonal_fast_path exCtx exLearn exLearn exAssign 1 7 2 2 5 true
    exDists exWeights1 (fun _ _ => rfl)).1

/-- C8: `LogLikelihood` returns the sum over all points of the logarithm of
the point's mixture density (the sum over components of mixing weight times
component density); when a point's mixture density is exactly 0 the
logarithm is still taken — `lg 0`, negative infinity, modelled as `⊥` — the
total is then negative infinity, and the accumulation is a total function:
no error is raised. -/
theorem c8_loglikelihood_total (ctx : EMContext D N)
    (dists : Fin K → GaussianDistribution D) (weights : Fin K → ℚ) :
    logLikelihood ctx dists weights =
      ∑ j, ctx.lg (mixtureDensity ctx dists weights j) ∧
    (ctx.lg 0 = ⊥ → ∀ j0 : Fin N, mixtureDensity ctx dists weights j0 = 0 →
      logLikelihood ctx dists weights = ⊥) := by
  refine ⟨logLikelihood_eq_sum ctx dists weights, fun hlg j0 hj0 => ?_⟩
  rw [logLikelihood_eq_sum, ← Finset.add_sum_erase _ _ (Finset.mem_univ j0),
    hj0, hlg]
  exact WithBot.bot_add _

/-- Witness for C8: a concrete model assigning mixture density 0 to the
single point, whose log-likelihood evaluates to negative infinity. -/
theorem c8_witness : logLikelihood exCtx exDists exWeights0 = ⊥ :=
  (c8_loglikelihood_total exCtx exDists exWeights0).2 rfl 0
    (by simp [mixtureDensity, exCtx, exWeights0])

/-- C9: the weighted `Estimate` overload always executes the generic E/M
loop governed by the caller-configured tolerance — its result is exactly
the generic weighted loop on the (optionally clustered) seed and is
independent of the constraint-policy tag and of the diagonal learner — while
the unweighted overload with the diagonal policy dispatches to
`ArmadilloGMMWrapper`. -/
theorem c9_weighted_never_dispatches (ctx : EMContext D N) (b b2 : Bool)
    (learn learn2 : DiagLearner D K) (assign : Fin N → Fin K)
    (w : Fin N → ℚ) (tol : ℚ) (maxIter fuel : ℕ) (uim : Bool)
    (dists : Fin K → GaussianDistribution D) (weights : Fin K → ℚ) :
    estimateWeighted ctx b learn assign w tol maxIter fuel uim dists weights =
      (let seeded := if uim then (dists, weights) else initialClustering ctx assign
       ((emLoopW ctx w tol maxIter fuel seeded.1 seeded.2).1.dists,
        (emLoopW ctx w tol maxIter fuel seeded.1 seeded.2).1.weights)) ∧
    estimateWeighted ctx b learn assign w tol maxIter fuel uim dists weights =
      estimateWeighted ctx b2 learn2 assign w tol maxIter fuel uim dists weights ∧
    estimate ctx true learn assign tol maxIter fuel uim dists weights =
      armadilloGMMWrapper ctx learn assign maxIter uim dists weights :=
  ⟨rfl, rfl, rfl⟩

/-- With unit point weights the weighted Effective Mass equals the
unweighted one. -/
theorem probRowSumsW_ones (cp : Fin N → Fin K → ℚ) (i : Fin K) :
    probRowSumsW (fun _ => 1) cp i = probRowSums cp i := by
  simp [probRowSumsW, probRowSums]

/-- With unit point weights and nonzero Effective Mass, the weighted
component update coincides with the unweighted one. -/
theorem mStepDistW_ones (ctx : EMContext D N) (cp : Fin N → Fin K → ℚ)
    (dists : Fin K → GaussianDistribution D) (i : Fin K)
    (h : probRowSums cp i ≠ 0) :
    mStepDistW ctx (fun _ => 1) cp i = mStepDist ctx cp dists i := by
  simp only [mStepDistW, mStepDist, probRowSumsW_ones, mul_one, ne_eq, h,
    not_false_iff, if_true]

/-- With unit point weights the weighted mixing-weight update coincides with
the unweighted one (`accu(probabilities) = N`). -/
theorem mStepWeightsW_ones (cp : Fin N → Fin K → ℚ) :
    mStepWeightsW (fun _ => (1 : ℚ)) cp = mStepWeights cp := by
  funext i
  simp [mStepWeightsW, mStepWeights, probRowSumsW_ones]

/-- With unit point weights and all Effective Masses nonzero, one weighted
E/M pass coincides with one unweighted E/M pass. -/
theorem emStepW_ones_eq (ctx : EMContext D N) (s : LoopState D K)
    (h : ∀ i, probRowSums (condProb ctx s.dists s.weights) i ≠ 0) :
    emStepW ctx (fun _ => 1) s = emStepU ctx s := by
  have hd : (fun i => mStepDistW ctx (fun _ => 1) (condProb ctx s.dists s.weights) i)
      = fun i => mStepDist ctx (condProb ctx s.dists s.weights) s.dists i := by
    funext i
    exact mStepDistW_ones ctx _ s.dists i (h i)
  simp only [emStepW, emStepU, hd, mStepWeightsW_ones]

/-- With unit point weights the weighted E/M loop coincides with the
unweighted one, provided every Effective Mass met along the run is
nonzero. -/
theorem emLoop_ones_eq (ctx : EMContext D N) (tol : ℚ) (maxIter : ℕ) :
    ∀ (fuel it : ℕ) (s : LoopState D K),
      (∀ n, n < fuel → ∀ i,
        probRowSums (condProb ctx ((emStepU ctx)^[n] s).dists
          ((emStepU ctx)^[n] s).weights) i ≠ 0) →
      emLoop (loopGuard tol maxIter) (emStepW ctx (fun _ => 1)) fuel it s =
      emLoop (loopGuard tol maxIter) (emStepU ctx) fuel it s
  | 0, _, _, _ => rfl
  | fuel + 1, it, s, H => by
    have h0 : ∀ i, probRowSums (condProb ctx s.dists s.weights) i ≠ 0 := by
      simpa using H 0 (Nat.succ_pos fuel)
    have ih := emLoop_ones_eq ctx tol maxIter fuel (it + 1) (emStepU ctx s)
      (fun n hn i => by
        simpa [Function.iterate_succ_apply] using H (n + 1) (by omega) i)
    unfold emLoop
    by_cases hg : loopGuard tol maxIter s it = true
    · simp only [if_pos hg, emStepW_ones_eq ctx s h0, ih]
    · simp only [if_neg hg]

/-- C6, amended: running the weighted overload with every point weight equal
to 1 produces exactly the same final components and mixing weights as the
unweighted overload on the same data, initial model, tolerance and
`maxIterations` (generic path), provided every component's Effective Mass is
nonzero at every executed iteration.  Without that proviso the original
claim fails (`c6_counterexample`): the unweighted overload freezes a
zero-mass component while the weighted one overwrites it. -/
theorem c6_weighted_unweighted_equiv (ctx : EMContext D N)
    (learn : DiagLearner D K) (assign : Fin N → Fin K) (tol : ℚ)
    (maxIter fuel : ℕ) (dists : Fin K → GaussianDistribution D)
    (weights : Fin K → ℚ)
    (H : ∀ n, n < fuel → ∀ i,
      probRowSums (condProb ctx
        ((emStepU ctx)^[n] (initState ctx dists weights)).dists
        ((emStepU ctx)^[n] (initState ctx dists weights)).weights) i ≠ 0) :
    estimateWeighted ctx false learn assign (fun _ => 1) tol maxIter fuel true
      dists weights =
    estimate ctx false learn assign tol maxIter fuel true dists weights := by
  unfold estimateWeighted estimate
  simp only [Bool.false_eq_true, if_false, if_true, emLoopW, emLoopU,
    emLoop_ones_eq ctx tol maxIter fuel 1 (initState ctx dists weights) H]

/-- Witness for C6: on a concrete healthy instance (unit weights, unit
density) the two overloads produce identical results. -/
theorem c6_witness :
    estimateWeighted exCtx false exLearn exAssign (fun _ => 1) 1 2 1 true
      exDists exWeights1 =
    estimate exCtx false exLearn exAssign 1 2 1 true exDists exWeights1 :=
  c6_weighted_unweighted_equiv exCtx exLearn exAssign 1 2 1 exDists exWeights1
    (by
      intro n hn i
      have hn0 : n = 0 := by omega
      subst hn0
      simp [initState, probRowSums, condProb, condProbRaw, normalizeRows,
        rowSum, exCtx, exDists, exWeights1])

/-- Counterexample for C6 as stated: with a zero-weight component the
unweighted overload keeps the component's mean (5) while the weighted
overload with unit point weights overwrites it (0 here; NaN in IEEE
arithmetic), so the two final models differ. -/
theorem c6_counterexample :
    ((estimateWeighted exCtx false exLearn exAssign (fun _ => 1) 1 2 2 true
        exDists exWeights0).1 0).mean 0 ≠
    ((estimate exCtx false exLearn exAssign 1 2 2 true exDists
        exWeights0).1 0).mean 0 := by
  have hL : ((estimateWeighted exCtx false exLearn exAssign (fun _ => 1) 1 2 2
      true exDists exWeights0).1 0).mean 0 = 0 := by
    simp [estimateWeighted, emLoopW, initState, emLoop, loopGuard, emStepW,
      condProb, condProbRaw, normalizeRows, rowSum, probRowSumsW, mStepDistW,
      mStepWeightsW, logLikelihood_eq_sum, mixtureDensity, exCtx, exDists,
      exWeights0, absDiffGtTol_bot_bot, absDiffGtTol_bot_coe,
      absDiffGtTol_coe_bot, absDiffGtTol_coe_coe]
  have hR : ((estimate exCtx false exLearn exAssign 1 2 2 true exDists
      exWeights0).1 0).mean 0 = 5 := by
    simp [estimate, emLoopU, initState, emLoop, loopGuard, emStepU, condProb,
      condProbRaw, normalizeRows, rowSum, probRowSums, mStepDist, mStepWeights,
      logLikelihood_eq_sum, mixtureDensity, exCtx, exDists, exWeights0,
      absDiffGtTol_bot_bot, absDiffGtTol_bot_coe, absDiffGtTol_coe_bot,
      absDiffGtTol_coe_coe]
  rw [hL, hR]
  norm_num

end EMFitModel
